import Mathlib

/-!
Verification of the sugar-cache two-tier caching client.

The definitions below are a shallow embedding of the TypeScript source:

* `src/lib/main.ts`   — the `SugarCache` facade: key composition
  (`wrapValuesInHashtags`, `flattenKeysIntoKeyList`, `transformKeysIntoKeyList`)
  and the `memoize` decorator;
* `src/lib/cache/index.ts`  — `MultilevelCache` (`get`, `mget`, `mset`, `set`);
* `src/lib/cache/memory.ts` — `InMemoryCache` (local tier);
* `src/lib/cache/redis.ts`  — `RedisCache` (remote tier, including `batchGet`,
  `batchSet` and `clear`);
* `src/lib/cache/base.ts`   — `transformIntoCacheKey`.

JS values are modelled as `Option V` (`none` is the JS `null`); the remote
tier stores values in a wire form (`Wire`) which is either a serialized value
(`JSON.stringify` on write, round-tripped by `JSON.parse` on read — the spec
treats serialization correctness as out of scope) or an externally corrupted
entry that fails to deserialize.  A JS object of logical keys is an
association list `List (String × String)` in insertion order; JS guarantees
the property names of one object are distinct, which appears as `Nodup`
hypotheses.  Remote transport failures are injected through two flags of the
state so that a redis transaction can fail at `get` or at `set` time.
-/

namespace SugarCacheProof

/-- Wire form of a remote-tier entry: `ser v` is the serialized form of the
JS value `v` (deserializing returns `v`; serializing the JS `null` yields the
string that parses back to `null`), `corrupt` is an entry whose stored text
fails to parse (`JSON.parse` throws and the catch-handler returns `null`). -/
inductive Wire (V : Type) where
  | ser (v : Option V)
  | corrupt
deriving DecidableEq, Repr

/-- Result of `JSON.parse` on a stored wire entry, as used by
`RedisCache.get` and `RedisCache.batchGet`: parse failure is `null`. -/
def decodeWire {V : Type} : Wire V → Option V
  | .ser v => v
  | .corrupt => none

/-- State of one `MultilevelCache` (both tiers plus the ambient conditions
the code reads): `ns` is the full namespace string, `memEnabled` the
`inMemoryCache.enable` option, `memWriteOk` the result of the process
memory-pressure check (`memUsed < memUsageThreshold`) at write time,
`redisErrOnGet`/`redisErrOnSet` inject a transport error into the remote
transaction of a point `get`/`set`, `mem` is the local `Map` (`none` =
key absent, `some w` = stored JS value `w`), `redis` the remote keyspace. -/
structure MLState (V : Type) where
  ns : String
  memEnabled : Bool
  memWriteOk : Bool
  redisErrOnGet : Bool
  redisErrOnSet : Bool
  mem : String → Option (Option V)
  redis : String → Option (Wire V)

/-- The join `keys.join(':')` as performed by each tier on the flattened key list. -/
def joinKeys (ks : List String) : String := String.intercalate ":" ks

/-- Embedding of `Cache.transformIntoCacheKey` (src/lib/cache/base.ts line 18):
the remote/local map key is the namespace, a colon, and the joined key. -/
def transformIntoCacheKey (ns key : String) : String := ns ++ ":" ++ key

/-- Full cache key of a flattened key list under namespace `ns`. -/
def cacheLoc (ns : String) (ks : List String) : String :=
  transformIntoCacheKey ns (joinKeys ks)

/-- Namespace construction (src/lib/cache/index.ts line 16):
`sugar-cache:` followed by the configured namespace; JS `||` substitutes
the default for an absent or empty namespace option. -/
def mkNamespace (ns : Option String) : String :=
  "sugar-cache:" ++ (match ns with
    | none => "default"
    | some s => if s = "" then "default" else s)

/-! ### Key Composer (src/lib/main.ts lines 72-93) -/

/-- One iteration of the `wrapValuesInHashtags` loop: the entry keeps its
logical name; a value whose name is in the hashtag set is wrapped in brace
delimiters. -/
def wrapOne (hashtags : List String) (e : String × String) : String × String :=
  (e.1, if hashtags.contains e.1 then "\x7b" ++ e.2 ++ "\x7d" else e.2)

/-- Embedding of `wrapValuesInHashtags` (src/lib/main.ts lines 78-89): builds a fresh
object `out` holding, for each entry of the caller object in insertion
order, the (possibly brace-wrapped) value under the same name. -/
def wrapValuesInHashtags (hashtags : List String) (keys : List (String × String)) :
    List (String × String) :=
  keys.map (wrapOne hashtags)

/-- Comparator of `flattenKeysIntoKeyList`: entries are ordered by logical
name ascending (`keyA[0].localeCompare(keyB[0])`, modelled as the
lexicographic order on strings). -/
def entryLE (a b : String × String) : Prop := a.1 ≤ b.1

instance : DecidableRel entryLE := fun a b => inferInstanceAs (Decidable (a.1 ≤ b.1))

instance : IsTotal (String × String) entryLE := ⟨fun a b => le_total a.1 b.1⟩

instance : IsTrans (String × String) entryLE := ⟨fun _ _ _ h1 h2 => le_trans h1 h2⟩

/-- Embedding of `flattenKeysIntoKeyList` (src/lib/main.ts lines 72-76): take the
object entries, sort them by logical name, and keep the values only. -/
def flattenKeysIntoKeyList (keys : List (String × String)) : List String :=
  (List.insertionSort entryLE keys).map Prod.snd

/-- Embedding of `transformKeysIntoKeyList` (src/lib/main.ts lines 91-93). -/
def transformKeysIntoKeyList (hashtags : List String) (keys : List (String × String)) :
    List String :=
  flattenKeysIntoKeyList (wrapValuesInHashtags hashtags keys)

/-- The composed key string: the flattened key list joined by the fixed
separator, as every tier does before prefixing the namespace. -/
def composedKey (hashtags : List String) (keys : List (String × String)) : String :=
  joinKeys (transformKeysIntoKeyList hashtags keys)

/-- Modelled from the spec wording of the Key Composer (spec section 4.1):
sort the entries by logical name ascending, emit each value wrapped in brace
delimiters when its name is flagged, and join the values with the fixed
separator.  Used to compare the source pipeline against the specified one. -/
def composedKeySpec (hashtags : List String) (keys : List (String × String)) : String :=
  String.intercalate ":"
    ((List.insertionSort entryLE keys).map
      (fun e => if hashtags.contains e.1 then "\x7b" ++ e.2 ++ "\x7d" else e.2))

/-- The key written to the remote store for a point entry: `base.ts`
`transformIntoCacheKey` applied to the composed key, under the namespace
built by the `MultilevelCache` constructor. -/
def remoteKey (ns : Option String) (hashtags : List String)
    (keys : List (String × String)) : String :=
  transformIntoCacheKey (mkNamespace ns) (composedKey hashtags keys)

/-! ### Local Tier (src/lib/cache/memory.ts) -/

/-- Embedding of `InMemoryCache.get` (memory.ts lines 33-49): a disabled tier always
misses; otherwise `this.cache.get(cacheKey) ?? null` — an absent key and a
stored JS `null` both come out as `null`. -/
def InMemoryCache.get {V : Type} (st : MLState V) (keys : List String) : Option V :=
  if !st.memEnabled then none
  else
    match st.mem (cacheLoc st.ns keys) with
    | none => none
    | some w => w

/-- Embedding of `InMemoryCache.set` (memory.ts lines 51-71): a disabled tier ignores the
write; a write under memory pressure (`memUsed >= memUsageThreshold`) is
silently dropped; otherwise the value is stored under the cache key.  The
per-entry expiry timer is not modelled (no claim involves the passage of
time). -/
def InMemoryCache.set {V : Type} (st : MLState V) (keys : List String) (v : Option V) :
    MLState V :=
  { st with
    mem :=
      if !st.memEnabled then st.mem
      else if !st.memWriteOk then st.mem
      else Function.update st.mem (cacheLoc st.ns keys) (some v) }

/-- Embedding of `InMemoryCache.del` (memory.ts lines 73-88). -/
def InMemoryCache.del {V : Type} (st : MLState V) (keys : List String) : MLState V :=
  { st with
    mem :=
      if !st.memEnabled then st.mem
      else Function.update st.mem (cacheLoc st.ns keys) none }

/-! ### Remote Tier (src/lib/cache/redis.ts) -/

/-- Embedding of `RedisCache.get` (redis.ts lines 18-44): the transaction either reports
a transport error (rethrown as the internal redis error) or yields the
stored reply; an absent key replies `null`, which `JSON.parse` maps to the
JS `null`, and a reply that fails to parse is caught and becomes `null`. -/
def RedisCache.get {V : Type} (st : MLState V) (keys : List String) :
    Except String (Option V) :=
  if st.redisErrOnGet then .error "[SugarCache] Internal redis error"
  else .ok (match st.redis (cacheLoc st.ns keys) with
    | none => none
    | some w => decodeWire w)

/-- Embedding of `RedisCache.set` (redis.ts lines 46-66): on a transport error the
internal redis error is thrown and nothing is stored; otherwise the
serialized value is stored under the cache key (the TTL argument is passed
to the store's expiry mode and does not change which value is stored). -/
def RedisCache.set {V : Type} (st : MLState V) (keys : List String) (v : Option V)
    (_ttl : Nat) : Except String (MLState V) :=
  if st.redisErrOnSet then .error "[SugarCache] Internal redis error"
  else .ok { st with
    redis := Function.update st.redis (cacheLoc st.ns keys) (some (Wire.ser v)) }

/-- Embedding of `RedisCache.batchGet` (redis.ts lines 104-120): one pipeline issuing a
`get` per key; each reply is `JSON.parse`d with `?? null` and a catch-all
returning `null`, so an absent key and an unparsable reply both yield
`null`. -/
def RedisCache.batchGet {V : Type} (st : MLState V) (keyLists : List (List String)) :
    List (Option V) :=
  keyLists.map (fun ks =>
    match st.redis (cacheLoc st.ns ks) with
    | none => none
    | some w => decodeWire w)

/-- Embedding of `RedisCache.batchSet` (redis.ts lines 122-139): throws when the key and
value lists differ in length, otherwise pipelines a serialized `set` per
pair (this pipeline performs no per-reply error check). -/
def RedisCache.batchSet {V : Type} (st : MLState V) (keyLists : List (List String))
    (values : List (Option V)) (_ttl : Nat) : Except String (MLState V) :=
  if keyLists.length ≠ values.length then
    .error "Length of keys does not match length of values"
  else .ok { st with
    redis := (keyLists.zip values).foldl
      (fun r kv => Function.update r (cacheLoc st.ns kv.1) (some (Wire.ser kv.2)))
      st.redis }

/-! ### Multilevel Cache (src/lib/cache/index.ts) -/

/-- Remote-tier reads a `MultilevelCache` operation performs, recorded so a
theorem can state that an operation issued no remote read, or exactly one
batched one.  The payload is the cache key (or key list) sent on the wire. -/
inductive RemoteOp where
  | getOp (k : String)
  | batchGetOp (ks : List String)
deriving DecidableEq, Repr

/-- Embedding of `MultilevelCache.get` (index.ts lines 23-25):
`inMemoryCache.get(keys) ?? redisCache.get(keys)` — the remote tier is
consulted only in the branch where the local tier produced `null`.  The
second component records the remote reads performed. -/
def MultilevelCache.get {V : Type} (st : MLState V) (keys : List String) :
    Except String (Option V) × List RemoteOp :=
  match InMemoryCache.get st keys with
  | some v => (.ok (some v), [])
  | none => (RedisCache.get st keys, [RemoteOp.getOp (cacheLoc st.ns keys)])

/-- Embedding of `MultilevelCache.set` (index.ts lines 27-34): the local write happens
first (and is not transactional with the remote one), then the remote write
is awaited; a remote failure therefore leaves the local write in place. -/
def MultilevelCache.set {V : Type} (st : MLState V) (keys : List String) (v : Option V)
    (ttlMem ttlRedis : Nat) : Except String Unit × MLState V :=
  let _ := ttlMem
  let st1 := InMemoryCache.set st keys v
  match RedisCache.set st1 keys v ttlRedis with
  | .ok st2 => (.ok (), st2)
  | .error e => (.error e, st1)

/-- The re-interleaving loop of `MultilevelCache.mget` (index.ts lines
51-60): walk the local results; a `null` local result consumes the next
remote result while any remain, every other position keeps its local
value. -/
def reinterleave {V : Type} : List (Option V) → List (Option V) → List (Option V)
  | [], _ => []
  | v :: rest, rs =>
    match v, rs with
    | none, r :: rsTail => r :: reinterleave rest rsTail
    | _, _ => v :: reinterleave rest rs

/-- Embedding of `MultilevelCache.mget` (index.ts lines 45-63): read every key from the
local tier, keep the keys whose local result is `null` (the code filters by
position against `inMemoryResults`, which equals filtering by the local
read of the key), fetch exactly those in one remote pipeline, and
re-interleave. -/
def MultilevelCache.mget {V : Type} [DecidableEq V] (st : MLState V)
    (keyLists : List (List String)) : List (Option V) × List RemoteOp :=
  let inMemoryResults := keyLists.map (InMemoryCache.get st)
  let redisQueryKeys := keyLists.filter (fun ks => InMemoryCache.get st ks = none)
  let redisCacheResults := RedisCache.batchGet st redisQueryKeys
  (reinterleave inMemoryResults redisCacheResults,
   [RemoteOp.batchGetOp (redisQueryKeys.map (cacheLoc st.ns))])

/-- Embedding of `MultilevelCache.mset` (index.ts lines 65-74): the length check throws
before either tier is touched; otherwise each pair is written to the local
tier and the remote pipeline is executed.  The state is returned alongside
the outcome so that the error branch demonstrably leaves it unchanged. -/
def MultilevelCache.mset {V : Type} (st : MLState V) (keyLists : List (List String))
    (values : List (Option V)) (ttl : Nat) : Except String Unit × MLState V :=
  if keyLists.length ≠ values.length then
    (.error "Length of keys and values is not the same", st)
  else
    let st1 := (keyLists.zip values).foldl (fun s kv => InMemoryCache.set s kv.1 kv.2) st
    match RedisCache.batchSet st1 keyLists values ttl with
    | .ok st2 => (.ok (), st2)
    | .error e => (.error e, st1)

/-- The value a point read settles on when transport succeeds: the local
value if the local tier holds one, otherwise the decoded remote value.
This is the specification each `mget` position is compared against. -/
def pointRead {V : Type} (st : MLState V) (keys : List String) : Option V :=
  match InMemoryCache.get st keys with
  | some v => some v
  | none =>
    match st.redis (cacheLoc st.ns keys) with
    | none => none
    | some w => decodeWire w

/-! ### Cache Facade and Memoization Layer (src/lib/main.ts) -/

/-- Facade `get` (main.ts lines 102-104): compose the key list from the
caller's logical-key mapping, then delegate. -/
def SugarCache.get {V : Type} (st : MLState V) (hashtags : List String)
    (keys : List (String × String)) : Except String (Option V) × List RemoteOp :=
  MultilevelCache.get st (transformKeysIntoKeyList hashtags keys)

/-- Facade `set` (main.ts lines 113-125) with a single TTL, which is
normalized to the same value for both tiers. -/
def SugarCache.set {V : Type} (st : MLState V) (hashtags : List String)
    (keys : List (String × String)) (v : Option V) (ttl : Nat) :
    Except String Unit × MLState V :=
  MultilevelCache.set st (transformKeysIntoKeyList hashtags keys) v ttl ttl

/-- One invocation of a method decorated by `SugarCache.memoize` (main.ts
lines 239-252), after the logical-key mapping `keys` has been derived from
the call arguments (`getKeysFromFunc` is a function of the argument list,
so identical arguments derive identical mappings).  `body` is the value the
underlying function computes; the third component counts how many times the
underlying body ran (0 or 1).  A cached non-null result returns directly;
otherwise the body runs, and the facade `set` is awaited with a catch that
wraps and rethrows any failure. -/
def memoizedCall {V : Type} (st : MLState V) (hashtags : List String)
    (keys : List (String × String)) (ttl : Nat) (body : Option V) :
    Except String (Option V) × MLState V × Nat :=
  match (SugarCache.get st hashtags keys).1 with
  | .error e => (.error e, st, 0)
  | .ok (some v) => (.ok (some v), st, 0)
  | .ok none =>
    let r := SugarCache.set st hashtags keys body ttl
    match r.1 with
    | .ok _ => (.ok body, r.2, 1)
    | .error e =>
      (.error ("[SugarCache:" ++ st.ns ++ "] Unable to set value to cache - " ++ e),
       r.2, 1)

/-! ### `RedisCache.clear` (src/lib/cache/redis.ts lines 84-102)

The remote keyspace is modelled as a list of per-node association lists
(a single-node deployment is the one-node case).  `clear` asks each node
for the keys matching the pattern `<namespace>*` — a glob that, for a
namespace without glob metacharacters, matches exactly the keys having the
namespace string as a prefix — concatenates the per-node candidate lists,
and deletes every candidate key from the keyspace. -/

/-- String prefix test: what the redis pattern `<ns>*` matches. -/
def nsMatches (ns k : String) : Bool := ns.data.isPrefixOf k.data

/-- Embedding of `node.keys(namespace + '*')`: the keys of one node matching the
pattern. -/
def nodeKeys {V : Type} (ns : String) (node : List (String × Wire V)) : List String :=
  (node.filter (fun kv => nsMatches ns kv.1)).map Prod.fst

/-- The concatenated deletion-candidate list over the cluster (redis.ts
lines 86-88); for a single node this is that node's matching keys. -/
def deletionCandidates {V : Type} (ns : String) (nodes : List (List (String × Wire V))) :
    List String :=
  (nodes.map (nodeKeys ns)).flatten

/-- Embedding of `RedisCache.clear`: delete every deletion-candidate key from the
keyspace (`redis.del` removes the key wherever it lives; the candidate list
is computed from the keyspace before any deletion). -/
def RedisCache.clear {V : Type} (ns : String) (nodes : List (List (String × Wire V))) :
    List (List (String × Wire V)) :=
  nodes.map (fun node =>
    node.filter (fun kv => !(deletionCandidates ns nodes).contains kv.1))

/-- Point lookup in one node of the keyspace. -/
def lookupNode {V : Type} (node : List (String × Wire V)) (k : String) : Option (Wire V) :=
  (node.find? (fun kv => kv.1 == k)).map Prod.snd

/-- Point lookup across the cluster keyspace. -/
def lookupKeyspace {V : Type} : List (List (String × Wire V)) → String → Option (Wire V)
  | [], _ => none
  | node :: rest, k =>
    match lookupNode node k with
    | some w => some w
    | none => lookupKeyspace rest k

/-! ### Object writes of `wrapValuesInHashtags` (src/lib/main.ts lines 78-89)

To state that the caller's mapping object is never mutated, the loop body
is embedded once more at the level of the property writes it performs:
each iteration executes exactly one assignment `out[key] = ...`, and the
log below records, for every iteration, the object written to and the
name/value written.  Replaying a log against an object applies every write
that targets it with JS assignment semantics (overwrite an existing
property in place, else append). -/

/-- The two objects in scope inside `wrapValuesInHashtags`: the caller's
`keys` argument and the freshly allocated `out`. -/
inductive WriteTarget where
  | callerObj
  | freshOut
deriving DecidableEq, Repr

/-- The property writes `wrapValuesInHashtags` performs, in execution
order: for every entry of the input, one write of the (possibly wrapped)
value under the same name — always to `out`, per the source. -/
def wrapValuesWrites (hashtags : List String) (keys : List (String × String)) :
    List (WriteTarget × String × String) :=
  keys.map (fun e =>
    (WriteTarget.freshOut, e.1,
     if hashtags.contains e.1 then "\x7b" ++ e.2 ++ "\x7d" else e.2))

/-- JS property assignment `o[k] = v` on an object in insertion order:
overwrite in place when the name exists, append otherwise. -/
def objAssign (o : List (String × String)) (k v : String) : List (String × String) :=
  if o.any (fun e => e.1 == k) then o.map (fun e => if e.1 == k then (k, v) else e)
  else o ++ [(k, v)]

/-- Replay a write log against the object `target`, applying the writes
aimed at it and ignoring the others. -/
def applyWrites (obj : List (String × String)) (target : WriteTarget)
    (log : List (WriteTarget × String × String)) : List (String × String) :=
  log.foldl (fun o w => if w.1 = target then objAssign o w.2.1 w.2.2 else o) obj

/-! ### Helper lemmas about the Key Composer -/

/-- Strict version of the entry comparator, available because a JS object
never holds two properties of the same name. -/
def entryLT (a b : String × String) : Prop := a.1 < b.1

instance : IsAntisymm (String × String) entryLT :=
  ⟨fun _ _ h1 h2 => absurd h2 (lt_asymm h1)⟩

theorem wrapValues_map_fst (hashtags : List String) (l : List (String × String)) :
    (wrapValuesInHashtags hashtags l).map Prod.fst = l.map Prod.fst := by
  induction l with
  | nil => rfl
  | cons a t ih =>
    simp only [wrapValuesInHashtags, List.map_cons] at ih ⊢
    rw [ih]
    rfl

theorem orderedInsert_wrap (hashtags : List String) (a : String × String)
    (l : List (String × String)) :
    List.orderedInsert entryLE (wrapOne hashtags a) (wrapValuesInHashtags hashtags l)
      = wrapValuesInHashtags hashtags (List.orderedInsert entryLE a l) := by
  induction l with
  | nil => rfl
  | cons b t ih =>
    simp only [wrapValuesInHashtags, List.map_cons, List.orderedInsert] at ih ⊢
    by_cases hle : entryLE a b
    · rw [if_pos (show entryLE (wrapOne hashtags a) (wrapOne hashtags b) from hle),
        if_pos hle]
      rfl
    · rw [if_neg (show ¬ entryLE (wrapOne hashtags a) (wrapOne hashtags b) from hle),
        if_neg hle, List.map_cons, ih]

theorem insertionSort_wrap (hashtags : List String) (l : List (String × String)) :
    List.insertionSort entryLE (wrapValuesInHashtags hashtags l)
      = wrapValuesInHashtags hashtags (List.insertionSort entryLE l) := by
  induction l with
  | nil => rfl
  | cons a t ih =>
    simp only [wrapValuesInHashtags, List.map_cons, List.insertionSort] at ih ⊢
    rw [ih]
    exact orderedInsert_wrap hashtags a (List.insertionSort entryLE t)

theorem sorted_nodup_eq {l1 l2 : List (String × String)}
    (hnd : (l1.map Prod.fst).Nodup) (hp : l1.Perm l2)
    (hs1 : List.Sorted entryLE l1) (hs2 : List.Sorted entryLE l2) : l1 = l2 := by
  have hnd2 : (l2.map Prod.fst).Nodup := ((hp.map Prod.fst).nodup_iff).1 hnd
  have hne1 : l1.Pairwise (fun a b => a.1 ≠ b.1) := List.pairwise_map.1 hnd
  have hne2 : l2.Pairwise (fun a b => a.1 ≠ b.1) := List.pairwise_map.1 hnd2
  have hlt1 : List.Sorted entryLT l1 :=
    (List.Pairwise.and hs1 hne1).imp fun h => lt_of_le_of_ne h.1 h.2
  have hlt2 : List.Sorted entryLT l2 :=
    (List.Pairwise.and hs2 hne2).imp fun h => lt_of_le_of_ne h.1 h.2
  exact List.eq_of_perm_of_sorted hp hlt1 hlt2

theorem wrap_map_snd (hashtags : List String) (l : List (String × String)) :
    (wrapValuesInHashtags hashtags l).map Prod.snd
      = l.map (fun e => if hashtags.contains e.1 then "\x7b" ++ e.2 ++ "\x7d" else e.2) := by
  induction l with
  | nil => rfl
  | cons a t ih =>
    simp only [wrapValuesInHashtags, List.map_cons] at ih ⊢
    exact congrArg _ ih

/-- The composed key after wrap-then-sort equals the spec composition
(sort-then-wrap): the two commute because wrapping leaves names intact. -/
theorem composedKey_eq_spec (hashtags : List String) (l : List (String × String)) :
    composedKey hashtags l = composedKeySpec hashtags l := by
  unfold composedKey composedKeySpec transformKeysIntoKeyList flattenKeysIntoKeyList joinKeys
  rw [insertionSort_wrap, wrap_map_snd]

/-! ### Claim theorems -/

/-- C1: composing the key is a pure function of the logical-key mapping's
contents: for a mapping with distinct logical names, any two insertion
orders of its entries compose to the identical string, and that string is
the one obtained by wrapping every flagged value in braces, sorting the
entries by logical name ascending, and joining the values (not the names)
with the fixed separator. -/
theorem claim1_key_composition_pure (hashtags : List String)
    (l1 l2 : List (String × String))
    (hnd : (l1.map Prod.fst).Nodup) (hp : l1.Perm l2) :
    composedKey hashtags l1 = composedKey hashtags l2 ∧
    composedKey hashtags l1 = composedKeySpec hashtags l1 := by
  refine ⟨?_, composedKey_eq_spec hashtags l1⟩
  unfold composedKey transformKeysIntoKeyList flattenKeysIntoKeyList
  have hperm : (List.insertionSort entryLE (wrapValuesInHashtags hashtags l1)).Perm
      (List.insertionSort entryLE (wrapValuesInHashtags hashtags l2)) :=
    ((List.perm_insertionSort entryLE _).trans (hp.map (wrapOne hashtags))).trans
      (List.perm_insertionSort entryLE _).symm
  have hnd1 :
      ((List.insertionSort entryLE (wrapValuesInHashtags hashtags l1)).map Prod.fst).Nodup := by
    refine (((List.perm_insertionSort entryLE _).map Prod.fst).nodup_iff).2 ?_
    rw [wrapValues_map_fst]
    exact hnd
  rw [sorted_nodup_eq hnd1 hperm
    (List.sorted_insertionSort entryLE _) (List.sorted_insertionSort entryLE _)]

/-- Witness for C1 at a concrete mapping supplied in two insertion orders,
with the name `a` flagged for hash-tagging. -/
theorem claim1_witness :
    ((([("b", "y"), ("a", "x")] : List (String × String)).map Prod.fst).Nodup
      ∧ ([("b", "y"), ("a", "x")] : List (String × String)).Perm [("a", "x"), ("b", "y")])
    ∧ (composedKey ["a"] [("b", "y"), ("a", "x")]
          = composedKey ["a"] [("a", "x"), ("b", "y")]
      ∧ composedKey ["a"] [("b", "y"), ("a", "x")]
          = composedKeySpec ["a"] [("b", "y"), ("a", "x")]) :=
  ⟨⟨by decide, by decide⟩,
   claim1_key_composition_pure ["a"] _ _ (by decide) (by decide)⟩

/-- C8 counterexample: the claim places a `:cache:` segment between the
namespace and the composed key, but `base.ts` renders `<namespace>:<composed>`
directly: for namespace `ns` and the mapping `id -> v` with `id` flagged,
the wire key is the string `sugar-cache:ns:` followed by `v` in braces,
which differs from the claimed `<namespace>:cache:<composed>` form. -/
theorem claim8_counterexample :
    remoteKey (some "ns") ["id"] [("id", "v")] = "sugar-cache:ns:\x7bv\x7d"
    ∧ remoteKey (some "ns") ["id"] [("id", "v")]
        ≠ mkNamespace (some "ns") ++ ":cache:" ++ composedKey ["id"] [("id", "v")] := by
  constructor
  · rfl
  · decide

/-- C8 (amended): the key written to the remote store for a point entry is
exactly `<namespace>:<composed-key>` (no `:cache:` segment in the two-tier
implementation; that segment exists only in the legacy single-tier
`lib/index.ts`), where the composed key carries every hash-tag-flagged
logical value wrapped in brace delimiters, entries sorted by name and
joined by the fixed separator. -/
theorem claim8_remote_key_layout (ns : Option String) (hashtags : List String)
    (keys : List (String × String)) :
    remoteKey ns hashtags keys
      = mkNamespace ns ++ ":" ++ composedKeySpec hashtags keys := by
  unfold remoteKey transformIntoCacheKey
  rw [composedKey_eq_spec]

/-- C2: the multilevel `get` consults the local tier first and the remote
tier only when the local tier returns null: a key the local tier holds a
non-null value for is answered from the local value with no remote read,
and on a local null the single remote read decides the outcome. -/
theorem claim2_local_first (V : Type) (st : MLState V) (keys : List String) :
    (∀ v, InMemoryCache.get st keys = some v →
      MultilevelCache.get st keys = (.ok (some v), []))
    ∧ (InMemoryCache.get st keys = none →
      (MultilevelCache.get st keys).2 = [RemoteOp.getOp (cacheLoc st.ns keys)]
      ∧ (MultilevelCache.get st keys).1 = RedisCache.get st keys) := by
  constructor
  · intro v hv
    unfold MultilevelCache.get
    rw [hv]
  · intro hn
    unfold MultilevelCache.get
    rw [hn]
    exact ⟨rfl, rfl⟩

/-- A concrete state for witnesses: the local tier holds 7 under the key
list `[k]`, the remote tier is empty, both tiers healthy. -/
def wStateA : MLState Nat where
  ns := "sugar-cache:w"
  memEnabled := true
  memWriteOk := true
  redisErrOnGet := false
  redisErrOnSet := false
  mem := Function.update (fun _ => none) "sugar-cache:w:k" (some (some 7))
  redis := fun _ => none

/-- Witness for C2: a local hit on `wStateA` is returned with no remote
read. -/
theorem claim2_witness :
    InMemoryCache.get wStateA ["k"] = some 7
    ∧ MultilevelCache.get wStateA ["k"] = (.ok (some 7), []) :=
  ⟨by decide, (claim2_local_first Nat wStateA ["k"]).1 7 (by decide)⟩

theorem reinterleave_filter {V W : Type} [DecidableEq V] (g h : W → Option V)
    (kls : List W) :
    reinterleave (kls.map g) ((kls.filter (fun w => g w = none)).map h)
      = kls.map (fun w => match g w with | some v => some v | none => h w) := by
  induction kls with
  | nil => rfl
  | cons k t ih =>
    rw [List.map_cons, List.map_cons]
    rcases hk : g k with _ | v
    · rw [List.filter_cons_of_pos (by simpa using hk), List.map_cons]
      show h k :: reinterleave (t.map g) ((t.filter (fun w => g w = none)).map h) = _
      rw [ih]
    · rw [List.filter_cons_of_neg (by simp [hk])]
      show some v :: reinterleave (t.map g) ((t.filter (fun w => g w = none)).map h) = _
      rw [ih]

/-- C3: `mget` returns one result per requested key in request order, each
position carrying the local value when the local tier hits and the decoded
remote value otherwise; the remote tier receives exactly one batched fetch,
covering exactly the local misses; and a key set in neither tier yields
null at its position. -/
theorem claim3_mget_partition (V : Type) [DecidableEq V] (st : MLState V)
    (kls : List (List String)) :
    (MultilevelCache.mget st kls).1.length = kls.length
    ∧ (MultilevelCache.mget st kls).1 = kls.map (pointRead st)
    ∧ (MultilevelCache.mget st kls).2
        = [RemoteOp.batchGetOp
            ((kls.filter (fun ks => InMemoryCache.get st ks = none)).map (cacheLoc st.ns))]
    ∧ ∀ ks ∈ kls, st.mem (cacheLoc st.ns ks) = none →
        st.redis (cacheLoc st.ns ks) = none → pointRead st ks = none := by
  have hmap : (MultilevelCache.mget st kls).1 = kls.map (pointRead st) := by
    unfold MultilevelCache.mget RedisCache.batchGet
    exact reinterleave_filter (InMemoryCache.get st) _ kls
  refine ⟨by rw [hmap, List.length_map], hmap, rfl, ?_⟩
  intro ks _ hmem hred
  unfold pointRead InMemoryCache.get
  by_cases he : st.memEnabled
  · simp only [he, Bool.not_true, Bool.false_eq_true, if_false, hmem, hred]
  · simp only [Bool.not_eq_true'] at he
    simp only [he, Bool.not_false, if_true, hred]

/-- Witness for C3 on `wStateA` with requests `[k]` (a local hit) and `[m]`
(set in neither tier): positions are preserved, the single batched remote
fetch covers only the miss, and the never-set key yields null. -/
theorem claim3_witness :
    ((MultilevelCache.mget wStateA [["k"], ["m"]]).1 = [some 7, none]
      ∧ (MultilevelCache.mget wStateA [["k"], ["m"]]).2
          = [RemoteOp.batchGetOp ["sugar-cache:w:m"]])
    ∧ pointRead wStateA ["m"] = none := by
  have h := claim3_mget_partition Nat wStateA [["k"], ["m"]]
  refine ⟨⟨?_, ?_⟩, h.2.2.2 ["m"] (by decide) (by decide) (by decide)⟩
  · rw [h.2.1]
    decide
  · rw [h.2.2.1]
    decide

theorem memGet_none_of_mlGet_none {V : Type} {st : MLState V} {ks : List String}
    (h : (MultilevelCache.get st ks).1 = Except.ok none) :
    InMemoryCache.get st ks = none := by
  unfold MultilevelCache.get at h
  rcases hm : InMemoryCache.get st ks with _ | w
  · rfl
  · rw [hm] at h
    simp at h

/-- After a successful `set` of `v`, a point read settles on `v`: either the
local write went through and the local tier serves it, or the local write
was dropped (disabled tier or memory pressure) and the remote tier serves
the freshly serialized value — provided the local tier held nothing for the
key before the write. -/
theorem mlGet_after_mlSet {V : Type} (st : MLState V) (ks : List String) (v : Option V)
    (tm tr : Nat) (hset : st.redisErrOnSet = false) (hget : st.redisErrOnGet = false)
    (hmiss : InMemoryCache.get st ks = none) :
    (MultilevelCache.get (MultilevelCache.set st ks v tm tr).2 ks).1 = .ok v := by
  have hst2 : (MultilevelCache.set st ks v tm tr).2
      = { InMemoryCache.set st ks v with
          redis := Function.update st.redis (cacheLoc st.ns ks) (some (Wire.ser v)) } := by
    unfold MultilevelCache.set RedisCache.set
    simp [InMemoryCache.set, hset]
  rw [hst2]
  unfold MultilevelCache.get InMemoryCache.get RedisCache.get InMemoryCache.set
  unfold InMemoryCache.get at hmiss
  cases he : st.memEnabled with
  | false =>
    simp [he, hget, Function.update_same, decodeWire]
  | true =>
    cases hw : st.memWriteOk with
    | false =>
      simp only [he, hw, Bool.not_true, Bool.not_false, Bool.false_eq_true, if_false,
        if_true] at hmiss ⊢
      rw [hmiss]
      simp [hget, Function.update_same, decodeWire]
    | true =>
      simp only [he, hw, Bool.not_true, Bool.false_eq_true, if_false,
        Function.update_same]
      cases v with
      | none => simp [hget, Function.update_same, decodeWire]
      | some b => simp [Function.update_same]

/-- C4: a memoized call whose facade `get` returns a cached non-null result
returns that value without running the underlying body (state untouched,
zero executions); and starting from a miss, two successive memoized calls
with identical arguments (hence an identical derived mapping) and a
non-null computed result run the body exactly once — the first call
computes and populates, the second returns the same value from cache with
zero executions. -/
theorem claim4_memoize_single_execution (V : Type) (st stHit : MLState V)
    (hashtags : List String) (keys : List (String × String)) (ttl : Nat)
    (body body2 : Option V) (v : V)
    (hHit : (SugarCache.get stHit hashtags keys).1 = .ok (some v))
    (hget : st.redisErrOnGet = false) (hset : st.redisErrOnSet = false)
    (hMiss : (SugarCache.get st hashtags keys).1 = .ok none)
    (hBody : body ≠ none) :
    memoizedCall stHit hashtags keys ttl body2 = (.ok (some v), stHit, 0)
    ∧ (memoizedCall st hashtags keys ttl body).1 = .ok body
    ∧ (memoizedCall st hashtags keys ttl body).2.2 = 1
    ∧ memoizedCall (memoizedCall st hashtags keys ttl body).2.1 hashtags keys ttl body2
        = (.ok body, (memoizedCall st hashtags keys ttl body).2.1, 0) := by
  obtain ⟨b, rfl⟩ : ∃ b, body = some b := by
    cases hb : body with
    | none => exact absurd hb hBody
    | some b => exact ⟨b, rfl⟩
  have hHitCall : memoizedCall stHit hashtags keys ttl body2 = (.ok (some v), stHit, 0) := by
    unfold memoizedCall
    rw [hHit]
  have hsetOk : (SugarCache.set st hashtags keys (some b) ttl).1 = .ok () := by
    unfold SugarCache.set MultilevelCache.set RedisCache.set
    simp [InMemoryCache.set, hset]
  have hFirst : memoizedCall st hashtags keys ttl (some b)
      = (.ok (some b), (SugarCache.set st hashtags keys (some b) ttl).2, 1) := by
    unfold memoizedCall
    rw [hMiss]
    rcases hr : SugarCache.set st hashtags keys (some b) ttl with ⟨r1, st1⟩
    rw [hr] at hsetOk
    simp only at hsetOk
    rw [hsetOk]
  have hAfter : (SugarCache.get (SugarCache.set st hashtags keys (some b) ttl).2
      hashtags keys).1 = .ok (some b) :=
    mlGet_after_mlSet st _ (some b) ttl ttl hset hget
      (memGet_none_of_mlGet_none hMiss)
  have hSecond : memoizedCall (SugarCache.set st hashtags keys (some b) ttl).2
      hashtags keys ttl body2
      = (.ok (some b), (SugarCache.set st hashtags keys (some b) ttl).2, 0) := by
    unfold memoizedCall
    rw [hAfter]
  exact ⟨hHitCall, by rw [hFirst], by rw [hFirst], by rw [hFirst]; exact hSecond⟩

/-- A concrete state for witnesses: both tiers empty and healthy. -/
def wStateB : MLState Nat where
  ns := "sugar-cache:w"
  memEnabled := true
  memWriteOk := true
  redisErrOnGet := false
  redisErrOnSet := false
  mem := fun _ => none
  redis := fun _ => none

/-- Witness for C4: on the hit state `wStateA` a memoized call returns the
cached 7 without executing its body; on the empty state `wStateB` two
successive calls computing 5 execute the body once in total and agree. -/
theorem claim4_witness :
    ((SugarCache.get wStateA [] [("x", "k")]).1 = .ok (some 7)
      ∧ wStateB.redisErrOnGet = false ∧ wStateB.redisErrOnSet = false
      ∧ (SugarCache.get wStateB [] [("x", "k")]).1 = .ok none
      ∧ (some 5 : Option Nat) ≠ none)
    ∧ (memoizedCall wStateA [] [("x", "k")] 5 (some 9) = (.ok (some 7), wStateA, 0)
      ∧ (memoizedCall wStateB [] [("x", "k")] 5 (some 5)).1 = .ok (some 5)
      ∧ (memoizedCall wStateB [] [("x", "k")] 5 (some 5)).2.2 = 1
      ∧ memoizedCall (memoizedCall wStateB [] [("x", "k")] 5 (some 5)).2.1
            [] [("x", "k")] 5 (some 9)
          = (.ok (some 5), (memoizedCall wStateB [] [("x", "k")] 5 (some 5)).2.1, 0)) :=
  ⟨⟨rfl, rfl, rfl, rfl, by decide⟩,
   claim4_memoize_single_execution Nat wStateB wStateA [] [("x", "k")] 5
     (some 5) (some 9) 7 rfl rfl rfl rfl (by decide)⟩

/-- A concrete state on which the remote transaction of a `set` fails. -/
def wStateErr : MLState Nat where
  ns := "sugar-cache:e"
  memEnabled := false
  memWriteOk := true
  redisErrOnGet := false
  redisErrOnSet := true
  mem := fun _ => none
  redis := fun _ => none

/-- C5 counterexample: when the populate `set` of a memoized miss fails,
the call does not return the freshly computed value — the `catch` handler
wraps and rethrows, so the call fails with the wrapping error (the body
having run once). -/
theorem claim5_counterexample :
    (memoizedCall wStateErr [] [("x", "k")] 5 (some 3)).1
        = .error ("[SugarCache:" ++ wStateErr.ns
            ++ "] Unable to set value to cache - " ++ "[SugarCache] Internal redis error")
    ∧ (memoizedCall wStateErr [] [("x", "k")] 5 (some 3)).1 ≠ .ok (some 3)
    ∧ (memoizedCall wStateErr [] [("x", "k")] 5 (some 3)).2.2 = 1 :=
  ⟨rfl, fun h => Except.noConfusion h, rfl⟩

/-- C5 (amended): when a memoized call misses, computes, and the facade
`set` fails, the underlying body has executed once but the call throws the
error wrapping the populate failure instead of returning the computed
value. -/
theorem claim5_populate_failure_throws (V : Type) (st : MLState V)
    (hashtags : List String) (keys : List (String × String)) (ttl : Nat)
    (body : Option V)
    (hMiss : (SugarCache.get st hashtags keys).1 = .ok none)
    (hErr : st.redisErrOnSet = true) :
    (memoizedCall st hashtags keys ttl body).1
      = .error ("[SugarCache:" ++ st.ns
          ++ "] Unable to set value to cache - " ++ "[SugarCache] Internal redis error")
    ∧ (memoizedCall st hashtags keys ttl body).2.2 = 1 := by
  have hsetErr : (SugarCache.set st hashtags keys body ttl).1
      = .error "[SugarCache] Internal redis error" := by
    unfold SugarCache.set MultilevelCache.set RedisCache.set
    simp [InMemoryCache.set, hErr]
  unfold memoizedCall
  rw [hMiss]
  rcases hr : SugarCache.set st hashtags keys body ttl with ⟨r1, st1⟩
  rw [hr] at hsetErr
  simp only at hsetErr
  rw [hsetErr]
  exact ⟨rfl, rfl⟩

/-- Witness for C5 (amended) on the failing-set state. -/
theorem claim5_witness :
    ((SugarCache.get wStateErr [] [("x", "k")]).1 = .ok none
      ∧ wStateErr.redisErrOnSet = true)
    ∧ ((memoizedCall wStateErr [] [("x", "k")] 5 (some 4)).1
        = .error ("[SugarCache:" ++ wStateErr.ns
            ++ "] Unable to set value to cache - " ++ "[SugarCache] Internal redis error")
      ∧ (memoizedCall wStateErr [] [("x", "k")] 5 (some 4)).2.2 = 1) :=
  ⟨⟨rfl, rfl⟩,
   claim5_populate_failure_throws Nat wStateErr [] [("x", "k")] 5 (some 4) rfl rfl⟩

/-- C9: a stored null is indistinguishable from absence at the public
interface — after a facade `set` of null on a key the facade holds nothing
live for, the facade `get` returns null exactly as for a never-set key;
and a memoized function computing null is treated as a miss on every call:
each of two successive memoized calls executes the body (once each). -/
theorem claim9_null_indistinguishable (V : Type) (st : MLState V)
    (hashtags : List String) (keys : List (String × String)) (ttl : Nat)
    (hget : st.redisErrOnGet = false) (hset : st.redisErrOnSet = false)
    (hMiss : (SugarCache.get st hashtags keys).1 = .ok none) :
    (SugarCache.get (SugarCache.set st hashtags keys none ttl).2 hashtags keys).1
        = .ok none
    ∧ (memoizedCall st hashtags keys ttl none).1 = .ok none
    ∧ (memoizedCall st hashtags keys ttl none).2.2 = 1
    ∧ (memoizedCall (memoizedCall st hashtags keys ttl none).2.1
        hashtags keys ttl none).2.2 = 1 := by
  have hAfter : (SugarCache.get (SugarCache.set st hashtags keys none ttl).2
      hashtags keys).1 = .ok none :=
    mlGet_after_mlSet st _ none ttl ttl hset hget (memGet_none_of_mlGet_none hMiss)
  have hsetOk : (SugarCache.set st hashtags keys none ttl).1 = .ok () := by
    unfold SugarCache.set MultilevelCache.set RedisCache.set
    simp [InMemoryCache.set, hset]
  have hFirst : memoizedCall st hashtags keys ttl none
      = (.ok none, (SugarCache.set st hashtags keys none ttl).2, 1) := by
    unfold memoizedCall
    rw [hMiss]
    rcases hr : SugarCache.set st hashtags keys none ttl with ⟨r1, st1⟩
    rw [hr] at hsetOk
    simp only at hsetOk
    rw [hsetOk]
  have hSecondCount : (memoizedCall (SugarCache.set st hashtags keys none ttl).2
      hashtags keys ttl none).2.2 = 1 := by
    unfold memoizedCall
    rw [hAfter]
    rcases SugarCache.set (SugarCache.set st hashtags keys none ttl).2
        hashtags keys none ttl with ⟨r2, st2⟩
    cases r2 <;> rfl
  exact ⟨hAfter, by rw [hFirst], by rw [hFirst], by rw [hFirst]; exact hSecondCount⟩

/-- A concrete state whose remote tier holds an entry that fails to
deserialize under the key composed from the mapping `id -> v` with `id`
hash-tag-flagged. -/
def wStateCorrupt : MLState Nat where
  ns := "sugar-cache:c"
  memEnabled := true
  memWriteOk := true
  redisErrOnGet := false
  redisErrOnSet := false
  mem := fun _ => none
  redis := Function.update (fun _ => none) "sugar-cache:c:\x7bv\x7d" (some Wire.corrupt)

/-- Witness for C9 on a state whose stored value fails to deserialize:
the facade treats it as a miss, and a null-computing memoized function
re-executes on each of two successive calls. -/
theorem claim9_witness :
    (wStateCorrupt.redisErrOnGet = false ∧ wStateCorrupt.redisErrOnSet = false
      ∧ (SugarCache.get wStateCorrupt ["id"] [("id", "v")]).1 = .ok none)
    ∧ ((SugarCache.get (SugarCache.set wStateCorrupt ["id"] [("id", "v")] none 5).2
          ["id"] [("id", "v")]).1 = .ok none
      ∧ (memoizedCall wStateCorrupt ["id"] [("id", "v")] 5 none).1 = .ok none
      ∧ (memoizedCall wStateCorrupt ["id"] [("id", "v")] 5 none).2.2 = 1
      ∧ (memoizedCall (memoizedCall wStateCorrupt ["id"] [("id", "v")] 5 none).2.1
          ["id"] [("id", "v")] 5 none).2.2 = 1) :=
  ⟨⟨rfl, rfl, rfl⟩,
   claim9_null_indistinguishable Nat wStateCorrupt ["id"] [("id", "v")] 5 rfl rfl rfl⟩

/-- C6: `mset` raises the length-mismatch error immediately — before either
tier is touched, so the state is returned unchanged — whenever the key and
value lists differ in length, and raises no such error when the lengths
agree. -/
theorem claim6_mset_length_check (V : Type) (st : MLState V)
    (kls : List (List String)) (vs : List (Option V)) (ttl : Nat) :
    (kls.length ≠ vs.length →
      MultilevelCache.mset st kls vs ttl
        = (.error "Length of keys and values is not the same", st))
    ∧ (kls.length = vs.length →
      (MultilevelCache.mset st kls vs ttl).1 = .ok ()) := by
  constructor
  · intro h
    unfold MultilevelCache.mset
    rw [if_pos h]
  · intro h
    unfold MultilevelCache.mset RedisCache.batchSet
    rw [if_neg (show ¬ kls.length ≠ vs.length from fun hc => hc h)]
    simp [h]

/-- Witness for C6: a one-key mset against an empty value list errors with
the state unchanged; matching lengths succeed. -/
theorem claim6_witness :
    (([["k"]] : List (List String)).length ≠ List.length ([] : List (Option Nat))
      ∧ ([["k"]] : List (List String)).length = [some (3 : Nat)].length)
    ∧ (MultilevelCache.mset wStateB [["k"]] ([] : List (Option Nat)) 5
        = (.error "Length of keys and values is not the same", wStateB)
      ∧ (MultilevelCache.mset wStateB [["k"]] [some (3 : Nat)] 5).1 = .ok ()) :=
  ⟨⟨by decide, by decide⟩,
   ⟨(claim6_mset_length_check Nat wStateB [["k"]] [] 5).1 (by decide),
    (claim6_mset_length_check Nat wStateB [["k"]] [some 3] 5).2 (by decide)⟩⟩

/-! ### Helper lemmas about `clear` -/

theorem find?_filter_dropped {V : Type} (node : List (String × Wire V))
    (cands : List String) (k : String) (hc : cands.contains k = true) :
    (node.filter (fun kv => !cands.contains kv.1)).find? (fun kv => kv.1 == k) = none := by
  rw [List.find?_eq_none]
  intro kv hkv hpk
  rw [List.mem_filter] at hkv
  have hk1 : kv.1 = k := by simpa using hpk
  have h2 := hkv.2
  rw [hk1, hc] at h2
  simp at h2

theorem find?_filter_keep {V : Type} (node : List (String × Wire V))
    (cands : List String) (k : String) (hc : cands.contains k = false) :
    (node.filter (fun kv => !cands.contains kv.1)).find? (fun kv => kv.1 == k)
      = node.find? (fun kv => kv.1 == k) := by
  induction node with
  | nil => rfl
  | cons kv t ih =>
    by_cases hk : (kv.1 == k) = true
    · have hk1 : kv.1 = k := by simpa using hk
      have hkeep : (!cands.contains kv.1) = true := by rw [hk1, hc]; rfl
      rw [List.filter_cons, if_pos hkeep, List.find?_cons, List.find?_cons, hk]
    · have hkf : (kv.1 == k) = false := by simpa using hk
      by_cases hq : (!cands.contains kv.1) = true
      · rw [List.filter_cons, if_pos hq, List.find?_cons, List.find?_cons, hkf]
        exact ih
      · rw [List.filter_cons, if_neg hq, List.find?_cons, hkf]
        exact ih

theorem lookupKeyspace_all_none {V : Type} (ms : List (List (String × Wire V)))
    (k : String) (h : ∀ m ∈ ms, lookupNode m k = none) : lookupKeyspace ms k = none := by
  induction ms with
  | nil => rfl
  | cons m t ih =>
    unfold lookupKeyspace
    rw [h m (List.mem_cons_self m t)]
    exact ih fun m2 hm2 => h m2 (List.mem_cons_of_mem m hm2)

theorem lookupKeyspace_congr {V : Type} (f : List (String × Wire V) → List (String × Wire V))
    (ms : List (List (String × Wire V))) (k : String)
    (h : ∀ m ∈ ms, lookupNode (f m) k = lookupNode m k) :
    lookupKeyspace (ms.map f) k = lookupKeyspace ms k := by
  induction ms with
  | nil => rfl
  | cons m t ih =>
    simp only [List.map_cons]
    unfold lookupKeyspace
    rw [h m (List.mem_cons_self m t)]
    cases lookupNode m k with
    | some w => rfl
    | none => exact ih fun m2 hm2 => h m2 (List.mem_cons_of_mem m hm2)

theorem lookupKeyspace_some_mem {V : Type} {ms : List (List (String × Wire V))}
    {k : String} {w : Wire V} (h : lookupKeyspace ms k = some w) :
    ∃ m ∈ ms, lookupNode m k = some w := by
  induction ms with
  | nil => simp [lookupKeyspace] at h
  | cons m t ih =>
    unfold lookupKeyspace at h
    cases hl : lookupNode m k with
    | some w2 =>
      rw [hl] at h
      have h2 : some w2 = some w := h
      exact ⟨m, List.mem_cons_self m t, by rw [hl]; exact h2⟩
    | none =>
      rw [hl] at h
      have h2 : lookupKeyspace t k = some w := h
      obtain ⟨m2, hm2, hw⟩ := ih h2
      exact ⟨m2, List.mem_cons_of_mem m hm2, hw⟩

theorem nsMatches_of_mem_candidates {V : Type} {ns k : String}
    {nodes : List (List (String × Wire V))}
    (h : k ∈ deletionCandidates ns nodes) : nsMatches ns k = true := by
  unfold deletionCandidates at h
  rw [List.mem_flatten] at h
  obtain ⟨l, hl, hkl⟩ := h
  rw [List.mem_map] at hl
  obtain ⟨node, _, rfl⟩ := hl
  unfold nodeKeys at hkl
  rw [List.mem_map] at hkl
  obtain ⟨kv, hkv, rfl⟩ := hkl
  rw [List.mem_filter] at hkv
  exact hkv.2

theorem mem_candidates_of_lookup {V : Type} {ns k : String}
    {nodes : List (List (String × Wire V))} {node : List (String × Wire V)} {w : Wire V}
    (hnode : node ∈ nodes) (hl : lookupNode node k = some w)
    (hpre : nsMatches ns k = true) :
    k ∈ deletionCandidates ns nodes := by
  obtain ⟨kv, hfind⟩ : ∃ kv, node.find? (fun kv => kv.1 == k) = some kv := by
    unfold lookupNode at hl
    cases hf : node.find? (fun kv => kv.1 == k) with
    | none => rw [hf] at hl; simp at hl
    | some kv => exact ⟨kv, rfl⟩
  have hmem := List.mem_of_find?_eq_some hfind
  have hk1 : kv.1 = k := by simpa using List.find?_some hfind
  unfold deletionCandidates
  rw [List.mem_flatten]
  refine ⟨nodeKeys ns node, List.mem_map_of_mem (nodeKeys ns) hnode, ?_⟩
  unfold nodeKeys
  rw [List.mem_map]
  refine ⟨kv, ?_, hk1⟩
  rw [List.mem_filter]
  exact ⟨hmem, by rw [hk1]; exact hpre⟩

/-- C7 (amended): `clear` removes exactly the keys the pattern
`<namespace>*` matches, i.e. those having the namespace string as a prefix
(with no separator required): after `clear`, a lookup anywhere in the
cluster keyspace yields nothing for a prefix-matching key and is unchanged
for every other key; in particular every key the instance itself wrote
(`<namespace>:<composed>`) is removed.  Keys of another namespace survive
exactly when that namespace does not extend this one as a string prefix. -/
theorem claim7_clear_namespace (V : Type) (ns : String)
    (nodes : List (List (String × Wire V))) (k key : String) :
    lookupKeyspace (RedisCache.clear ns nodes) k
      = (if nsMatches ns k then none else lookupKeyspace nodes k)
    ∧ lookupKeyspace (RedisCache.clear ns nodes) (transformIntoCacheKey ns key) = none := by
  have main : ∀ k2 : String, lookupKeyspace (RedisCache.clear ns nodes) k2
      = (if nsMatches ns k2 then none else lookupKeyspace nodes k2) := by
    intro k2
    by_cases hc : (deletionCandidates ns nodes).contains k2 = true
    · have hpre : nsMatches ns k2 = true :=
        nsMatches_of_mem_candidates (List.mem_of_elem_eq_true hc)
      have hall : lookupKeyspace (RedisCache.clear ns nodes) k2 = none := by
        unfold RedisCache.clear
        refine lookupKeyspace_all_none _ k2 ?_
        intro m hm
        rw [List.mem_map] at hm
        obtain ⟨node, _, rfl⟩ := hm
        unfold lookupNode
        rw [find?_filter_dropped node _ k2 hc]
        rfl
      rw [hall, hpre, if_pos rfl]
    · have hcf : (deletionCandidates ns nodes).contains k2 = false := by
        simpa using hc
      have hsame : lookupKeyspace (RedisCache.clear ns nodes) k2
          = lookupKeyspace nodes k2 := by
        unfold RedisCache.clear
        refine lookupKeyspace_congr _ nodes k2 ?_
        intro node _
        unfold lookupNode
        rw [find?_filter_keep node _ k2 hcf]
      rw [hsame]
      cases hpre : nsMatches ns k2 with
      | false => rw [if_neg (show ¬ false = true from fun h => Bool.noConfusion h)]
      | true =>
        rw [if_pos rfl]
        cases hlk : lookupKeyspace nodes k2 with
        | none => rfl
        | some w =>
          obtain ⟨node, hnode, hl⟩ := lookupKeyspace_some_mem hlk
          have hfalse : List.elem k2 (deletionCandidates ns nodes) = false := hcf
          rw [List.elem_eq_true_of_mem
            (mem_candidates_of_lookup hnode hl hpre)] at hfalse
          exact Bool.noConfusion hfalse
  refine ⟨main k, ?_⟩
  rw [main (transformIntoCacheKey ns key)]
  have hpre : nsMatches ns (transformIntoCacheKey ns key) = true := by
    simp only [nsMatches, transformIntoCacheKey, String.data_append, List.append_assoc]
    simp only [List.isPrefixOf_iff_prefix]
    exact List.prefix_append _ _
  rw [hpre, if_pos rfl]

/-- C7 counterexample: the namespaces built from the options `a` and `ab`
are different strings, yet clearing the `a` instance deletes the key the
`ab` instance wrote, because the pattern `sugar-cache:a*` matches it — so
`clear` does remove keys written under another namespace. -/
theorem claim7_counterexample :
    mkNamespace (some "a") ≠ mkNamespace (some "ab")
    ∧ lookupKeyspace
        [[(transformIntoCacheKey (mkNamespace (some "ab")) "k", Wire.ser (some (0 : Nat)))]]
        (transformIntoCacheKey (mkNamespace (some "ab")) "k")
        = some (Wire.ser (some 0))
    ∧ lookupKeyspace
        (RedisCache.clear (mkNamespace (some "a"))
          [[(transformIntoCacheKey (mkNamespace (some "ab")) "k",
             Wire.ser (some (0 : Nat)))]])
        (transformIntoCacheKey (mkNamespace (some "ab")) "k") = none :=
  ⟨by decide, by decide, by decide⟩

/-! ### Helper lemmas about the write log of `wrapValuesInHashtags` -/

theorem applyWrites_cons (obj : List (String × String)) (target : WriteTarget)
    (w : WriteTarget × String × String) (t : List (WriteTarget × String × String)) :
    applyWrites obj target (w :: t)
      = applyWrites (if w.1 = target then objAssign obj w.2.1 w.2.2 else obj) target t :=
  rfl

theorem applyWrites_other (obj : List (String × String)) (target : WriteTarget)
    (log : List (WriteTarget × String × String))
    (h : ∀ w ∈ log, w.1 ≠ target) : applyWrites obj target log = obj := by
  induction log with
  | nil => rfl
  | cons w t ih =>
    rw [applyWrites_cons, if_neg (h w (List.mem_cons_self w t))]
    exact ih fun w2 hw2 => h w2 (List.mem_cons_of_mem w hw2)

theorem applyWrites_fresh (hashtags : List String)
    (keys : List (String × String)) :
    ∀ acc : List (String × String), (keys.map Prod.fst).Nodup →
    (∀ p ∈ acc, p.1 ∉ keys.map Prod.fst) →
    applyWrites acc WriteTarget.freshOut (wrapValuesWrites hashtags keys)
      = acc ++ wrapValuesInHashtags hashtags keys := by
  induction keys with
  | nil =>
    intro acc _ _
    simp [wrapValuesWrites, wrapValuesInHashtags, applyWrites]
  | cons e t ih =>
    intro acc hnd hdis
    rw [show wrapValuesWrites hashtags (e :: t)
        = (WriteTarget.freshOut, e.1,
            if hashtags.contains e.1 then "\x7b" ++ e.2 ++ "\x7d" else e.2)
          :: wrapValuesWrites hashtags t from rfl]
    rw [applyWrites_cons, if_pos rfl]
    have hany : (acc.any fun q => q.1 == e.1) = false := by
      rw [List.any_eq_false]
      intro p hp hbeq
      have hni := hdis p hp
      rw [List.map_cons, List.mem_cons] at hni
      exact hni (Or.inl (by simpa using hbeq))
    show applyWrites (objAssign acc e.1 _) WriteTarget.freshOut _ = _
    unfold objAssign
    rw [if_neg (show ¬ (acc.any fun q => q.1 == e.1) = true by
      rw [hany]; exact fun hcon => Bool.noConfusion hcon)]
    have hndt : (t.map Prod.fst).Nodup := by
      rw [List.map_cons] at hnd
      exact hnd.of_cons
    have hhead : e.1 ∉ t.map Prod.fst := by
      rw [List.map_cons] at hnd
      exact (List.nodup_cons.1 hnd).1
    rw [ih _ hndt ?_]
    · rw [List.append_assoc]
      rfl
    · intro p hp
      rw [List.mem_append] at hp
      cases hp with
      | inl hin =>
        intro hmem
        exact hdis p hin (by rw [List.map_cons, List.mem_cons]; exact Or.inr hmem)
      | inr hone =>
        have hp1 : p.1 = e.1 := by
          rw [List.mem_singleton] at hone
          rw [hone]
        rw [hp1]
        exact hhead

/-- C10: every property write the `wrapValuesInHashtags` loop performs
targets the freshly allocated output object and never the caller's mapping:
replaying the loop's write log against the caller's object leaves it
exactly as it was, while replaying it against the fresh empty object
produces precisely the wrapped copy the facade operations then consume. -/
theorem claim10_no_caller_mutation (hashtags : List String)
    (keys : List (String × String)) (hnd : (keys.map Prod.fst).Nodup) :
    (∀ w ∈ wrapValuesWrites hashtags keys, w.1 = WriteTarget.freshOut)
    ∧ applyWrites keys WriteTarget.callerObj (wrapValuesWrites hashtags keys) = keys
    ∧ applyWrites [] WriteTarget.freshOut (wrapValuesWrites hashtags keys)
        = wrapValuesInHashtags hashtags keys := by
  have hfresh : ∀ w ∈ wrapValuesWrites hashtags keys, w.1 = WriteTarget.freshOut := by
    intro w hw
    unfold wrapValuesWrites at hw
    rw [List.mem_map] at hw
    obtain ⟨e, _, rfl⟩ := hw
    rfl
  refine ⟨hfresh, ?_, ?_⟩
  · exact applyWrites_other keys WriteTarget.callerObj _
      (fun w hw => by rw [hfresh w hw]; exact fun h => WriteTarget.noConfusion h)
  · have h := applyWrites_fresh hashtags keys [] hnd (by intro p hp; cases hp)
    simpa using h

/-- Witness for C10 at a concrete two-entry mapping with one flagged name. -/
theorem claim10_witness :
    ((([("b", "y"), ("a", "x")] : List (String × String)).map Prod.fst).Nodup)
    ∧ applyWrites [("b", "y"), ("a", "x")] WriteTarget.callerObj
        (wrapValuesWrites ["a"] [("b", "y"), ("a", "x")]) = [("b", "y"), ("a", "x")]
    ∧ applyWrites [] WriteTarget.freshOut (wrapValuesWrites ["a"] [("b", "y"), ("a", "x")])
        = wrapValuesInHashtags ["a"] [("b", "y"), ("a", "x")] :=
  ⟨by decide,
   (claim10_no_caller_mutation ["a"] [("b", "y"), ("a", "x")] (by decide)).2.1,
   (claim10_no_caller_mutation ["a"] [("b", "y"), ("a", "x")] (by decide)).2.2⟩

end SugarCacheProof
